import Mathlib

/-!
A shallow embedding of the corpus / split / batch-generation pipeline of the
`speechless` repository (files `corpus.py`, `tools.py`, `labeled_example.py`),
together with theorems settling the specification claims about it.

Modelling conventions:
* Python lists become Lean `List`s; Python string ids, paths and labels become
  `String`s.
* Python's global `random` state is threaded explicitly as a `Nat` state of a
  deterministic linear-congruential generator standing in for the Mersenne
  twister; `random.seed(42)` is the operation replacing the ambient state by a
  fixed state derived from `42`.
* Fallible Python code (`raise`) is modelled with `Except`/`Option`.
* Real-valued numerics (`numpy`, `math.log10`) are modelled over `ℝ`.
-/

set_option linter.unusedVariables false

namespace Speechless

/-- Modelled from the spec: the `LabeledExample` that `corpus.py` manipulates
carries an `id` (string, unique within its corpus), the audio file path
(spec §6: manifest row is `id, audio_file_path, label, phase`), and a label.
The class in the snapshot of `labeled_example.py` stores `id` and `label` but
not the `audio_file` path that `corpus.py` reads and writes; the path-carrying
variant is modelled from the spec's data-model and manifest sections. -/
structure LabeledExample where
  id : String
  audio_file : String
  label : String
deriving DecidableEq

/-- Modelled from the spec: the name of the immediate containing directory of
the example's audio file (`example.audio_directory.name` in `corpus.py`),
i.e. the last path component before the file name. -/
def audio_directory_name (e : LabeledExample) : String :=
  ((e.audio_file.splitOn "/").dropLast).getLastD ""

/-- First-occurrence deduplication, with an accumulator of already seen
elements: the key order of Python's `collections.Counter` (insertion order). -/
def dedupFirstAux (seen : List String) : List String → List String
  | [] => []
  | x :: xs => if x ∈ seen then dedupFirstAux seen xs else x :: dedupFirstAux (x :: seen) xs

/-- The distinct elements of `l` in first-occurrence order (`Counter(l).keys()`). -/
def dedupFirst (l : List String) : List String :=
  dedupFirstAux [] l

/-- `tools.duplicates`: `[item for item, count in Counter(sequence).items() if count > 1]` —
the elements occurring more than once, in first-occurrence order. -/
def duplicates (l : List String) : List String :=
  (dedupFirst l).filter (fun x => 2 ≤ l.count x)

/-- The corpus data: an ordered training list and an ordered test list
(`Corpus.training_examples`, `Corpus.test_examples`). -/
structure Corpus where
  training_examples : List LabeledExample
  test_examples : List LabeledExample
deriving DecidableEq

/-- The three `ValueError`s `Corpus.__init__` can raise, each carrying the id
list interpolated into its message. -/
inductive CorpusError where
  | duplicateTraining (ids : List String)
  | duplicateTest (ids : List String)
  | overlapping (ids : List String)
deriving DecidableEq

/-- `Corpus.__init__`: store the two lists and their concatenation, then check
for duplicate ids in the training list, in the test list, and in the
concatenation, raising `ValueError` with the duplicated ids on violation. -/
def mkCorpus (training_examples test_examples : List LabeledExample) :
    Except CorpusError Corpus :=
  let duplicate_training_ids := duplicates (training_examples.map LabeledExample.id)
  if 0 < duplicate_training_ids.length then
    .error (.duplicateTraining duplicate_training_ids)
  else
    let duplicate_test_ids := duplicates (test_examples.map LabeledExample.id)
    if 0 < duplicate_test_ids.length then
      .error (.duplicateTest duplicate_test_ids)
    else
      let overlapping_ids :=
        duplicates ((training_examples ++ test_examples).map LabeledExample.id)
      if 0 < overlapping_ids.length then
        .error (.overlapping overlapping_ids)
      else
        .ok ⟨training_examples, test_examples⟩

/-- The `Phase` enum: `training = "training"`, `test = "test"`. -/
inductive Phase where
  | training
  | test
deriving DecidableEq

/-- `Phase.value`: the string value of a phase member. -/
def Phase.value : Phase → String
  | .training => "training"
  | .test => "test"

/-- `Phase[name]`: lookup of a phase member by name, `KeyError` (here `none`)
for any other string. For this enum member names coincide with values. -/
def Phase.fromName : String → Option Phase
  | "training" => some .training
  | "test" => some .test
  | _ => none

/-- A manifest row as written by `csv.writer`: `(e.id, str(e.audio_file),
e.label, phase.value)`. The CSV quoting layer itself is out of scope (spec §1)
and is modelled as faithful transport of the four string fields. -/
def Row : Type := String × String × String × String

/-- `Corpus.save`: one row per example, training examples first, then test
examples, each in original list order. -/
def Corpus.save (c : Corpus) : List Row :=
  (c.training_examples.map fun e => (e.id, e.audio_file, e.label, Phase.training.value)) ++
    (c.test_examples.map fun e => (e.id, e.audio_file, e.label, Phase.test.value))

/-- Failures of `Corpus.load`: an unparsable phase name (`KeyError`), or a
`ValueError` from the `Corpus` constructor it delegates to. -/
inductive LoadError where
  | badPhase (s : String)
  | invalid (e : CorpusError)
deriving DecidableEq

/-- One parsed row of `Corpus.load`:
`(LabeledExample(audio_file=Path(p), id=id, label=label), Phase[phase])`. -/
def parseRow (r : Row) : Except LoadError (LabeledExample × Phase) :=
  match r with
  | (id, audio_file_path, label, phase) =>
    match Phase.fromName phase with
    | some ph => .ok (⟨id, audio_file_path, label⟩, ph)
    | none => .error (.badPhase phase)

/-- The row-by-row parsing loop of `Corpus.load` (the list comprehension over
`csv.reader`), stopping at the first failing row. -/
def parseRows : List Row → Except LoadError (List (LabeledExample × Phase))
  | [] => .ok []
  | r :: rs =>
    match parseRow r with
    | .error e => .error e
    | .ok ep =>
      match parseRows rs with
      | .error e => .error e
      | .ok eps => .ok (ep :: eps)

/-- `Corpus.load`: parse every row, then construct a `Corpus` from the examples
whose phase is `training` and those whose phase is `test`, preserving row
order in each list. -/
def Corpus.load (rows : List Row) : Except LoadError Corpus :=
  match parseRows rows with
  | .error e => .error e
  | .ok examples =>
    match mkCorpus
        ((examples.filter (fun ep => ep.2 = Phase.training)).map Prod.fst)
        ((examples.filter (fun ep => ep.2 = Phase.test)).map Prod.fst) with
    | .ok c => .ok c
    | .error e => .error (.invalid e)

/-! ### The `random` module, modelled as explicit state

Python's `random` keeps one process-wide generator state. We model the state
as a `Nat` and the generator as a linear-congruential step (a stand-in for the
Mersenne twister: the claims below concern determinism and partition shape,
never the particular pseudo-random choices). -/

/-- One generator step: a classic 31-bit linear-congruential update. -/
def lcgNext (g : Nat) : Nat :=
  (g * 1103515245 + 12345) % 2147483648

/-- `random.seed(n)`: the generator state becomes a fixed function of `n`
alone, independent of the previous state. -/
def seedState (n : Nat) : Nat :=
  (n * 2654435761 + 1) % 2147483648

/-- Selection step of `random.sample`: draw `k` elements at pairwise distinct
positions, removing each drawn position from the population. Recursion is on
`k`; the population-empty branch is unreachable when `k` is at most the
population size. -/
def sampleAux (pop : List α) (g : Nat) : Nat → List α × Nat
  | 0 => ([], g)
  | k + 1 =>
    if h : pop.length = 0 then ([], g)
    else
      let g1 := lcgNext g
      let i := g1 % pop.length
      let x := pop.get ⟨i, Nat.mod_lt _ (Nat.pos_of_ne_zero h)⟩
      let rest := sampleAux (pop.eraseIdx i) g1 k
      (x :: rest.1, rest.2)

/-- `random.sample(population, k)`: `ValueError` (`none`) when `k` exceeds the
population size, otherwise `k` elements drawn without replacement, threading
the generator state. -/
def randomSample (pop : List α) (k : Nat) (g : Nat) : Option (List α × Nat) :=
  if pop.length < k then none
  else some (sampleAux pop g k)

/-! ### `tools.group` and the split strategies -/

/-- Stable insertion of `x` after all elements whose key is not greater:
helper for the stable ascending sort performed by Python's `sorted`. -/
def insertByKey (key : α → String) (x : α) : List α → List α
  | [] => [x]
  | y :: ys => if key x < key y then x :: y :: ys else y :: insertByKey key x ys

/-- `sorted(iterable, key=key)`: stable ascending sort by key (insertion
sort as the model). -/
def sortByKey (key : α → String) : List α → List α
  | [] => []
  | x :: xs => insertByKey key x (sortByKey key xs)

/-- `itertools.groupby`: group consecutive elements with equal keys. -/
def groupConsec (key : α → String) : List α → List (String × List α)
  | [] => []
  | x :: xs =>
    match groupConsec key xs with
    | [] => [(key x, [x])]
    | (k, grp) :: rest =>
      if key x = k then (k, x :: grp) :: rest else (key x, [x]) :: (k, grp) :: rest

/-- `tools.group`: an ordered dict from key to the tuple of elements with that
key, built by grouping the key-sorted input. -/
def group (l : List α) (key : α → String) : List (String × List α) :=
  groupConsec key (sortByKey key l)

/-- `int(training_share * len(directories))` for the default share `0.9`,
modelled as the exact rational floor. (The claims settled below do not depend
on the float rounding of `0.9 * n`.) -/
def defaultTrainingCount (n : Nat) : Nat :=
  9 * n / 10

/-- `TrainingTestSplit.randomly_grouped_by(key_from_example, training_share)`:
group the examples by key, seed the generator with the constant `42`, sample
`training_count` of the keys without replacement, and route examples whose key
was sampled to training, the rest to test (both filters of the input list).
The training-count computation from the float `training_share` is abstracted
as the function `training_count`; `none` is the `ValueError` that
`random.sample` raises when the requested count exceeds the number of keys. -/
def randomly_grouped_by (key_from_example : α → String) (training_count : Nat → Nat)
    (examples : List α) (g : Nat) :
    Option ((List α × List α) × Nat) :=
  let examples_by_directory := group examples key_from_example
  let directories := examples_by_directory.map Prod.fst
  let g1 := seedState 42
  match randomSample directories (training_count directories.length) g1 with
  | none => none
  | some (keys, g2) =>
    some ((examples.filter (fun e => keys.contains (key_from_example e)),
           examples.filter (fun e => !keys.contains (key_from_example e))), g2)

/-- `TrainingTestSplit.randomly(training_share=0.9)`: grouped by example id. -/
def randomly (examples : List LabeledExample) (g : Nat) :
    Option ((List LabeledExample × List LabeledExample) × Nat) :=
  randomly_grouped_by LabeledExample.id defaultTrainingCount examples g

/-- `TrainingTestSplit.randomly_grouped_by_directory(training_share=0.9)`:
grouped by the audio directory. -/
def randomly_grouped_by_directory (examples : List LabeledExample) (g : Nat) :
    Option ((List LabeledExample × List LabeledExample) × Nat) :=
  randomly_grouped_by audio_directory_name defaultTrainingCount examples g

/-- `TrainingTestSplit.overfit(n)`: `(examples[:n], examples[n:])`. -/
def overfit (training_example_count : Nat) (examples : List α) : List α × List α :=
  (examples.take training_example_count, examples.drop training_example_count)

/-- `TrainingTestSplit.by_directory(test_directory_name)`: examples whose
containing directory has the given name go to test, all others to training. -/
def by_directory (test_directory_name : String) (examples : List LabeledExample) :
    List LabeledExample × List LabeledExample :=
  (examples.filter (fun e => !(audio_directory_name e == test_directory_name)),
   examples.filter (fun e => audio_directory_name e == test_directory_name))

/-- `CombinedCorpus.__init__`: delegate to the `Corpus` constructor with the
concatenation of the member corpora's training lists and the concatenation of
their test lists, re-running the duplicate-id validation over the union. -/
def combinedCorpus (corpora : List Corpus) : Except CorpusError Corpus :=
  mkCorpus ((corpora.map Corpus.training_examples).flatten)
    ((corpora.map Corpus.test_examples).flatten)

/-! ### The batch generator (`LabeledSpectrogramBatchGenerator`) -/

/-- `tools.paginate` body for page size `m + 1`, with fuel bounding the number
of pages (the input length suffices): successive slices
`sequence[start : start + page_size]`. -/
def paginateAux (m : Nat) : Nat → List α → List (List α)
  | 0, _ => []
  | _, [] => []
  | fuel + 1, x :: xs => ((x :: xs).take (m + 1)) :: paginateAux m fuel (xs.drop m)

/-- `tools.paginate(sequence, page_size)` as used by `test_batches()`:
`range(0, len, 0)` raises `ValueError` (`none`); otherwise the consecutive
pages of `page_size` elements, the last possibly shorter. -/
def paginate (sequence : List α) (page_size : Nat) : Option (List (List α)) :=
  match page_size with
  | 0 => none
  | m + 1 => some (paginateAux m sequence.length sequence)

/-- The generator state after drawing `n + 1` training batches:
`training_batches` repeatedly yields `random.sample(training, batch_size)`.
`none` is the `ValueError` when the batch size exceeds the population. -/
def trainingBatchesAux (l : List α) (batch_size : Nat) (g : Nat) :
    Nat → Option (List α × Nat)
  | 0 => randomSample l batch_size g
  | n + 1 =>
    match randomSample l batch_size g with
    | none => none
    | some (_, g1) => trainingBatchesAux l batch_size g1 n

/-- The `n`-th batch yielded by `training_batches()` when iteration starts in
generator state `g`. -/
def trainingBatch (l : List α) (batch_size : Nat) (g : Nat) (n : Nat) :
    Option (List α) :=
  (trainingBatchesAux l batch_size g n).map Prod.fst

/-! ### Real-valued numerics (`labeled_example.py`) -/

/-- `numpy.mean` of a (flattened) array. -/
noncomputable def listMean (l : List ℝ) : ℝ :=
  l.sum / l.length

/-- The mean squared deviation of a (flattened) array (population variance,
`ddof = 0`, as `numpy.std` squares it). -/
noncomputable def listVar (l : List ℝ) : ℝ :=
  (l.map (fun x => (x - listMean l) ^ 2)).sum / l.length

/-- `numpy.std` of a (flattened) array: the square root of the mean squared
deviation. -/
noncomputable def listStd (l : List ℝ) : ℝ :=
  Real.sqrt (listVar l)

/-- `z_normalize(array)`: `(array - mean(array)) / std(array)` element-wise,
with mean and standard deviation over the entire array. -/
noncomputable def z_normalize (l : List ℝ) : List ℝ :=
  l.map (fun x => (x - listMean l) / listStd l)

/-- The decibel floor of `power_to_decibel` (found by experiment, per the
source comment). -/
def min_decibel : ℝ := -150

/-- `power_to_decibel(x)` inside `_power_level_from_power_spectrogram`:
the floor for `x == 0`; otherwise `10 * log10(x)` clamped below at the floor.
`math.log10` raises `ValueError` (`none`) on a negative argument, which the
source does not guard against. -/
noncomputable def power_to_decibel (x : ℝ) : Option ℝ :=
  if x = 0 then some min_decibel
  else if x < 0 then none
  else
    let l := 10 * Real.logb 10 x
    some (if l < min_decibel then min_decibel else l)

/-- `_power_level_from_power_spectrogram`: `power_to_decibel` vectorized over
the (flattened) spectrogram array. -/
noncomputable def power_level_from_power_spectrogram (spectrogram : List ℝ) :
    Option (List ℝ) :=
  spectrogram.mapM power_to_decibel

/-! ## Helper lemmas -/

lemma mem_dedupFirstAux (seen l : List String) (x : String) :
    x ∈ dedupFirstAux seen l ↔ x ∈ l ∧ x ∉ seen := by
  induction l generalizing seen with
  | nil => simp [dedupFirstAux]
  | cons y ys ih =>
    by_cases hy : y ∈ seen
    · simp only [dedupFirstAux, if_pos hy, ih, List.mem_cons]
      constructor
      · rintro ⟨h1, h2⟩
        exact ⟨Or.inr h1, h2⟩
      · rintro ⟨h1 | h1, h2⟩
        · exact absurd (h1 ▸ hy) h2
        · exact ⟨h1, h2⟩
    · simp only [dedupFirstAux, if_neg hy, ih, List.mem_cons]
      constructor
      · rintro (rfl | ⟨h1, h2⟩)
        · exact ⟨Or.inl rfl, hy⟩
        · refine ⟨Or.inr h1, fun hs => h2 (Or.inr hs)⟩
      · rintro ⟨rfl | h1, h2⟩
        · exact Or.inl rfl
        · rcases eq_or_ne x y with rfl | hxy
          · exact Or.inl rfl
          · exact Or.inr ⟨h1, by simp [hxy, h2]⟩

lemma mem_dedupFirst (l : List String) (x : String) :
    x ∈ dedupFirst l ↔ x ∈ l := by
  simp [dedupFirst, mem_dedupFirstAux]

lemma mem_duplicates (l : List String) (x : String) :
    x ∈ duplicates l ↔ 2 ≤ l.count x := by
  simp only [duplicates, List.mem_filter, mem_dedupFirst, decide_eq_true_eq]
  constructor
  · rintro ⟨_, h⟩
    exact h
  · intro h
    exact ⟨List.count_pos_iff.mp (by omega), h⟩

lemma duplicates_eq_nil (l : List String) :
    duplicates l = [] ↔ l.Nodup := by
  rw [List.eq_nil_iff_forall_not_mem, List.nodup_iff_count_le_one]
  constructor
  · intro h x
    have := h x
    rw [mem_duplicates] at this
    omega
  · intro h x hx
    rw [mem_duplicates] at hx
    have := h x
    omega

lemma mkCorpus_eq_ok_iff (tr te : List LabeledExample) (c : Corpus) :
    mkCorpus tr te = .ok c ↔
      (((tr ++ te).map LabeledExample.id).Nodup ∧ c = ⟨tr, te⟩) := by
  simp only [mkCorpus]
  split_ifs with h1 h2 h3
  · constructor
    · intro h
      exact absurd h (by simp)
    · rintro ⟨hn, -⟩
      exfalso
      rw [List.map_append] at hn
      have hL := hn.of_append_left
      rw [← duplicates_eq_nil] at hL
      rw [hL] at h1
      simp at h1
  · constructor
    · intro h
      exact absurd h (by simp)
    · rintro ⟨hn, -⟩
      exfalso
      rw [List.map_append] at hn
      have hR := hn.of_append_right
      rw [← duplicates_eq_nil] at hR
      rw [hR] at h2
      simp at h2
  · constructor
    · intro h
      exact absurd h (by simp)
    · rintro ⟨hn, -⟩
      exfalso
      rw [← duplicates_eq_nil] at hn
      rw [hn] at h3
      simp at h3
  · have hn : ((tr ++ te).map LabeledExample.id).Nodup := by
      rw [← duplicates_eq_nil]
      cases he : duplicates ((tr ++ te).map LabeledExample.id) with
      | nil => rfl
      | cons a as => rw [he] at h3; simp at h3
    constructor
    · intro h
      exact ⟨hn, (Except.ok.inj h).symm⟩
    · rintro ⟨-, rfl⟩
      rfl

/-! ## Claims about corpus construction and persistence -/

/-- C3: constructing a Corpus succeeds exactly when the combined training and
test id list has no duplicate (no duplicate within training, within test, or
across), and each of the three possible construction errors names exactly the
ids occurring more than once in the list whose check failed. -/
theorem corpus_construction_duplicate_ids (tr te : List LabeledExample) :
    ((∃ c, mkCorpus tr te = .ok c) ↔ ((tr ++ te).map LabeledExample.id).Nodup) ∧
    (∀ ids, mkCorpus tr te = .error (.duplicateTraining ids) →
      ∀ x, x ∈ ids ↔ 2 ≤ (tr.map LabeledExample.id).count x) ∧
    (∀ ids, mkCorpus tr te = .error (.duplicateTest ids) →
      ∀ x, x ∈ ids ↔ 2 ≤ (te.map LabeledExample.id).count x) ∧
    (∀ ids, mkCorpus tr te = .error (.overlapping ids) →
      ∀ x, x ∈ ids ↔ 2 ≤ ((tr ++ te).map LabeledExample.id).count x) := by
  refine ⟨?_, ?_, ?_, ?_⟩
  · constructor
    · rintro ⟨c, hc⟩
      exact ((mkCorpus_eq_ok_iff tr te c).mp hc).1
    · intro hn
      exact ⟨⟨tr, te⟩, (mkCorpus_eq_ok_iff tr te ⟨tr, te⟩).mpr ⟨hn, rfl⟩⟩
  · intro ids h x
    simp only [mkCorpus] at h
    split_ifs at h with h1 h2 h3
    · rw [← (CorpusError.duplicateTraining.inj (Except.error.inj h))]
      exact mem_duplicates _ x
    · exact absurd h (by simp)
    · exact absurd h (by simp)
  · intro ids h x
    simp only [mkCorpus] at h
    split_ifs at h with h1 h2 h3
    · exact absurd h (by simp)
    · rw [← (CorpusError.duplicateTest.inj (Except.error.inj h))]
      exact mem_duplicates _ x
    · exact absurd h (by simp)
  · intro ids h x
    simp only [mkCorpus] at h
    split_ifs at h with h1 h2 h3
    · exact absurd h (by simp)
    · exact absurd h (by simp)
    · rw [← (CorpusError.overlapping.inj (Except.error.inj h))]
      exact mem_duplicates _ x

/-- C3 witness: a duplicate-free construction succeeds; a training list
repeating id "a" fails naming exactly "a". -/
theorem corpus_construction_duplicate_ids_witness :
    (∃ c, mkCorpus [⟨"a", "d/a.wav", "x"⟩] [⟨"b", "d/b.wav", "y"⟩] = .ok c) ∧
    ("a" ∈ ["a"] ↔
      2 ≤ ((([⟨"a", "d/a.wav", "x"⟩, ⟨"a", "d/a2.wav", "y"⟩] :
        List LabeledExample)).map LabeledExample.id).count "a") := by
  constructor
  · exact (corpus_construction_duplicate_ids
      [⟨"a", "d/a.wav", "x"⟩] [⟨"b", "d/b.wav", "y"⟩]).1.mpr (by decide)
  · exact (corpus_construction_duplicate_ids
      [⟨"a", "d/a.wav", "x"⟩, ⟨"a", "d/a2.wav", "y"⟩] []).2.1 ["a"] (by rfl) "a"

lemma parseRow_save (e : LabeledExample) (ph : Phase) :
    parseRow (e.id, e.audio_file, e.label, ph.value) = .ok (e, ph) := by
  cases ph <;> rfl

lemma parseRows_saved (tr te : List LabeledExample) :
    parseRows
      ((tr.map fun e => (e.id, e.audio_file, e.label, Phase.training.value)) ++
        (te.map fun e => (e.id, e.audio_file, e.label, Phase.test.value))) =
      .ok ((tr.map fun e => (e, Phase.training)) ++ (te.map fun e => (e, Phase.test))) := by
  induction tr with
  | nil =>
    simp only [List.map_nil, List.nil_append]
    induction te with
    | nil => rfl
    | cons e l ih => simp [parseRows, parseRow_save, ih]
  | cons e l ih => simp [parseRows, parseRow_save, ih]

lemma filter_phase_training (l1 l2 : List LabeledExample) :
    (((l1.map fun e => (e, Phase.training)) ++ (l2.map fun e => (e, Phase.test))).filter
        (fun ep => ep.2 = Phase.training)).map Prod.fst = l1 := by
  induction l1 with
  | nil =>
    simp only [List.map_nil, List.nil_append]
    induction l2 with
    | nil => rfl
    | cons e l ih => simp [ih]
  | cons e l ih => simpa using ih

lemma filter_phase_test (l1 l2 : List LabeledExample) :
    (((l1.map fun e => (e, Phase.training)) ++ (l2.map fun e => (e, Phase.test))).filter
        (fun ep => ep.2 = Phase.test)).map Prod.fst = l2 := by
  induction l1 with
  | nil =>
    simp only [List.map_nil, List.nil_append]
    induction l2 with
    | nil => rfl
    | cons e l ih => simpa using ih
  | cons e l ih => simpa using ih

/-- C1: saving a Corpus and loading the saved rows reconstructs the corpus —
the training and test `(id, path, label)` triples (the whole examples, which
consist exactly of those three fields) match the original in original order —
and the saved rows are the training examples' rows followed by the test
examples' rows, in original list order. The hypothesis is the corpus
invariant every constructed `Corpus` satisfies (no duplicate ids). -/
theorem save_load_round_trip (c : Corpus)
    (h : ((c.training_examples ++ c.test_examples).map LabeledExample.id).Nodup) :
    Corpus.load c.save = .ok c ∧
    c.save =
      (c.training_examples.map fun e => (e.id, e.audio_file, e.label, Phase.training.value)) ++
        (c.test_examples.map fun e => (e.id, e.audio_file, e.label, Phase.test.value)) := by
  refine ⟨?_, rfl⟩
  have hok : mkCorpus c.training_examples c.test_examples =
      .ok ⟨c.training_examples, c.test_examples⟩ :=
    (mkCorpus_eq_ok_iff _ _ _).mpr ⟨h, rfl⟩
  have hc : (⟨c.training_examples, c.test_examples⟩ : Corpus) = c := rfl
  simp only [Corpus.load, Corpus.save, parseRows_saved, filter_phase_training,
    filter_phase_test, hok, hc]

/-- C1 witness: a concrete two-example corpus round-trips through save and
load. -/
theorem save_load_round_trip_witness :
    ((List.map LabeledExample.id
        ([⟨"a", "d/a.wav", "hello"⟩] ++ [⟨"b", "d/b.wav", "bye"⟩])).Nodup) ∧
    Corpus.load
        (Corpus.save ⟨[⟨"a", "d/a.wav", "hello"⟩], [⟨"b", "d/b.wav", "bye"⟩]⟩) =
      .ok ⟨[⟨"a", "d/a.wav", "hello"⟩], [⟨"b", "d/b.wav", "bye"⟩]⟩ := by
  refine ⟨by decide, ?_⟩
  exact (save_load_round_trip ⟨[⟨"a", "d/a.wav", "hello"⟩], [⟨"b", "d/b.wav", "bye"⟩]⟩
    (by decide)).1

/-! ## Claims about the split strategies -/

/-- C2: the "randomly" split family is deterministic: because the generator is
re-seeded with the constant 42 inside the split, the result on a given example
list and key function is the same whatever the ambient generator state — in
particular, applying the split twice to the identical input yields the
identical (training, test) partition. -/
theorem randomly_split_deterministic
    (key_from_example : LabeledExample → String) (training_count : Nat → Nat)
    (examples : List LabeledExample) (g g' : Nat) :
    randomly_grouped_by key_from_example training_count examples g =
      randomly_grouped_by key_from_example training_count examples g' ∧
    randomly examples g = randomly examples g' ∧
    randomly_grouped_by_directory examples g = randomly_grouped_by_directory examples g' :=
  ⟨rfl, rfl, rfl⟩

/-- C6: `overfit(n)` on a list of length `L ≥ n` yields training = the first
`n` elements and test = the remaining `L - n` elements, both in input order;
`n = 0` gives an empty training set and `n = L` an empty test set. -/
theorem overfit_first_n (n : Nat) (examples : List α) (h : n ≤ examples.length) :
    (overfit n examples).1 = examples.take n ∧
    (overfit n examples).2 = examples.drop n ∧
    (overfit n examples).1.length = n ∧
    (overfit n examples).2.length = examples.length - n ∧
    (overfit n examples).1 ++ (overfit n examples).2 = examples ∧
    (n = 0 → (overfit n examples).1 = []) ∧
    (n = examples.length → (overfit n examples).2 = []) := by
  refine ⟨rfl, rfl, ?_, ?_, ?_, ?_, ?_⟩
  · simp [overfit, List.length_take, Nat.min_eq_left h]
  · simp [overfit]
  · exact List.take_append_drop n examples
  · rintro rfl
    simp [overfit]
  · rintro rfl
    simp [overfit]

/-- C6 witness: `overfit 2` on a three-element list. -/
theorem overfit_first_n_witness :
    2 ≤ ([1, 2, 3] : List Nat).length ∧
    (overfit 2 ([1, 2, 3] : List Nat)).1.length = 2 ∧
    (overfit 2 ([1, 2, 3] : List Nat)).1 ++ (overfit 2 ([1, 2, 3] : List Nat)).2 = [1, 2, 3] := by
  refine ⟨by decide, ?_, ?_⟩
  · exact (overfit_first_n 2 [1, 2, 3] (by decide)).2.2.1
  · exact (overfit_first_n 2 [1, 2, 3] (by decide)).2.2.2.2.1

lemma count_filter_add [DecidableEq α] (p : α → Bool) (l : List α) (a : α) :
    (l.filter p).count a + (l.filter (fun x => !p x)).count a = l.count a := by
  induction l with
  | nil => simp
  | cons x xs ih =>
    rcases eq_or_ne a x with rfl | hax
    · by_cases hx : p a
      · rw [List.filter_cons_of_pos (by simp [hx]), List.filter_cons_of_neg (by simp [hx]),
          List.count_cons_self, List.count_cons_self]
        omega
      · rw [List.filter_cons_of_neg (by simp [hx]), List.filter_cons_of_pos (by simp [hx]),
          List.count_cons_self, List.count_cons_self]
        omega
    · by_cases hx : p x
      · rw [List.filter_cons_of_pos (by simp [hx]), List.filter_cons_of_neg (by simp [hx]),
          List.count_cons_of_ne hax, List.count_cons_of_ne hax]
        omega
      · rw [List.filter_cons_of_neg (by simp [hx]), List.filter_cons_of_pos (by simp [hx]),
          List.count_cons_of_ne hax, List.count_cons_of_ne hax]
        omega

/-- C10: the `randomly_grouped_by` and `by_directory` strategies return a true
partition of the input: training and test are order-preserving subsequences of
the input list and together contain each input example exactly as often as the
input does. -/
theorem split_strategies_partition :
    (∀ (key_from_example : LabeledExample → String) (training_count : Nat → Nat)
        (examples : List LabeledExample) (g : Nat) (tr te : List LabeledExample) (g2 : Nat),
      randomly_grouped_by key_from_example training_count examples g = some ((tr, te), g2) →
        tr.Sublist examples ∧ te.Sublist examples ∧
          ∀ e, tr.count e + te.count e = examples.count e) ∧
    (∀ (test_directory_name : String) (examples : List LabeledExample),
      (by_directory test_directory_name examples).1.Sublist examples ∧
      (by_directory test_directory_name examples).2.Sublist examples ∧
      ∀ e, (by_directory test_directory_name examples).1.count e +
          (by_directory test_directory_name examples).2.count e = examples.count e) := by
  constructor
  · intro key tc ex g tr te g2 h
    simp only [randomly_grouped_by] at h
    rcases hs : randomSample ((group ex key).map Prod.fst)
        (tc ((group ex key).map Prod.fst).length) (seedState 42) with _ | ⟨keys, gk⟩
    · rw [hs] at h
      exact absurd h (by simp)
    · rw [hs] at h
      simp only [Option.some.injEq, Prod.mk.injEq] at h
      obtain ⟨⟨htr, hte⟩, hg⟩ := h
      subst htr
      subst hte
      exact ⟨List.filter_sublist _, List.filter_sublist _,
        fun e => count_filter_add _ ex e⟩
  · intro name ex
    refine ⟨List.filter_sublist _, List.filter_sublist _, fun e => ?_⟩
    have h := count_filter_add (fun e => audio_directory_name e == name) ex e
    simp only [by_directory]
    omega

/-- C10 witness: a one-example list under a constant key (share 0.9 of one key
is zero keys, so everything lands in test) is partitioned. -/
theorem split_strategies_partition_witness :
    randomly_grouped_by (fun _ => "k") defaultTrainingCount
        [(⟨"a", "d/a.wav", "x"⟩ : LabeledExample)] 0 =
      some (([], [⟨"a", "d/a.wav", "x"⟩]), seedState 42) ∧
    List.Sublist ([] : List LabeledExample) [⟨"a", "d/a.wav", "x"⟩] ∧
    List.Sublist [(⟨"a", "d/a.wav", "x"⟩ : LabeledExample)] [⟨"a", "d/a.wav", "x"⟩] ∧
    ([] : List LabeledExample).count ⟨"a", "d/a.wav", "x"⟩ +
        [(⟨"a", "d/a.wav", "x"⟩ : LabeledExample)].count ⟨"a", "d/a.wav", "x"⟩ =
      [(⟨"a", "d/a.wav", "x"⟩ : LabeledExample)].count ⟨"a", "d/a.wav", "x"⟩ := by
  obtain ⟨h1, h2, h3⟩ := split_strategies_partition.1 (fun _ => "k") defaultTrainingCount
    [⟨"a", "d/a.wav", "x"⟩] 0 [] [⟨"a", "d/a.wav", "x"⟩] (seedState 42) rfl
  exact ⟨rfl, h1, h2, h3 ⟨"a", "d/a.wav", "x"⟩⟩

/-! ## Combined corpora and pagination -/

/-- C7: a CombinedCorpus, when its construction succeeds, has as training list
the concatenation of the member corpora's training lists in order, and as test
list the concatenation of their test lists in order; construction runs the
duplicate-id validation over the union, succeeding exactly when the combined
id list is duplicate-free. -/
theorem combined_corpus_concatenates (corpora : List Corpus) :
    (∀ c, combinedCorpus corpora = .ok c →
      c.training_examples = (corpora.map Corpus.training_examples).flatten ∧
      c.test_examples = (corpora.map Corpus.test_examples).flatten) ∧
    ((∃ c, combinedCorpus corpora = .ok c) ↔
      (((corpora.map Corpus.training_examples).flatten ++
          (corpora.map Corpus.test_examples).flatten).map LabeledExample.id).Nodup) := by
  constructor
  · intro c hc
    obtain ⟨-, rfl⟩ := (mkCorpus_eq_ok_iff _ _ _).mp hc
    exact ⟨rfl, rfl⟩
  · constructor
    · rintro ⟨c, hc⟩
      exact ((mkCorpus_eq_ok_iff _ _ _).mp hc).1
    · intro hn
      exact ⟨_, (mkCorpus_eq_ok_iff _ _ _).mpr ⟨hn, rfl⟩⟩

/-- C7 witness: combining a training-only corpus A and a test-only corpus B
yields training = A's training and test = B's test. -/
theorem combined_corpus_concatenates_witness :
    combinedCorpus [⟨[⟨"a", "d/a.wav", "x"⟩], []⟩, ⟨[], [⟨"b", "d/b.wav", "y"⟩]⟩] =
      .ok ⟨[⟨"a", "d/a.wav", "x"⟩], [⟨"b", "d/b.wav", "y"⟩]⟩ ∧
    (⟨[⟨"a", "d/a.wav", "x"⟩], [⟨"b", "d/b.wav", "y"⟩]⟩ : Corpus).training_examples =
      (([⟨[⟨"a", "d/a.wav", "x"⟩], []⟩, ⟨[], [⟨"b", "d/b.wav", "y"⟩]⟩] :
        List Corpus).map Corpus.training_examples).flatten ∧
    (⟨[⟨"a", "d/a.wav", "x"⟩], [⟨"b", "d/b.wav", "y"⟩]⟩ : Corpus).test_examples =
      (([⟨[⟨"a", "d/a.wav", "x"⟩], []⟩, ⟨[], [⟨"b", "d/b.wav", "y"⟩]⟩] :
        List Corpus).map Corpus.test_examples).flatten := by
  have h := (combined_corpus_concatenates
    [⟨[⟨"a", "d/a.wav", "x"⟩], []⟩, ⟨[], [⟨"b", "d/b.wav", "y"⟩]⟩]).1
    ⟨[⟨"a", "d/a.wav", "x"⟩], [⟨"b", "d/b.wav", "y"⟩]⟩ (by rfl)
  exact ⟨by rfl, h.1, h.2⟩

lemma paginateAux_nil (m fuel : Nat) : paginateAux m fuel ([] : List α) = [] := by
  cases fuel <;> rfl

lemma paginateAux_spec (m : Nat) :
    ∀ (fuel : Nat) (l : List α), l.length ≤ fuel →
      (paginateAux m fuel l).flatten = l ∧
      (∀ p ∈ paginateAux m fuel l, 0 < p.length ∧ p.length ≤ m + 1) ∧
      (∀ p ∈ (paginateAux m fuel l).dropLast, p.length = m + 1) := by
  intro fuel
  induction fuel with
  | zero =>
    intro l hl
    have : l = [] := List.eq_nil_of_length_eq_zero (Nat.le_zero.mp hl)
    subst this
    simp [paginateAux]
  | succ f ih =>
    intro l hl
    match l with
    | [] => simp [paginateAux]
    | x :: xs =>
      have hlen : (xs.drop m).length ≤ f := by
        rw [List.length_drop]
        simp only [List.length_cons] at hl
        omega
      obtain ⟨ihflat, ihlen, ihfull⟩ := ih (xs.drop m) hlen
      refine ⟨?_, ?_, ?_⟩
      · simp only [paginateAux, List.flatten_cons, ihflat]
        rw [List.take_succ_cons, List.cons_append, List.take_append_drop]
      · intro p hp
        simp only [paginateAux, List.mem_cons] at hp
        rcases hp with rfl | hp
        · constructor
          · simp [List.length_take]
          · simp [List.length_take]
        · exact ihlen p hp
      · intro p hp
        rw [show paginateAux m (f + 1) (x :: xs) =
            ((x :: xs).take (m + 1)) :: paginateAux m f (xs.drop m) from rfl] at hp
        cases hrest : paginateAux m f (xs.drop m) with
        | nil =>
          rw [hrest] at hp
          simp at hp
        | cons q qs =>
          rw [hrest, List.dropLast_cons_of_ne_nil (by simp)] at hp
          rcases List.mem_cons.mp hp with rfl | hp'
          · have hne : xs.drop m ≠ [] := by
              intro hnil
              rw [hnil, paginateAux_nil] at hrest
              exact List.noConfusion hrest
            have hm : m < xs.length := by
              by_contra hge
              exact hne (List.drop_eq_nil_iff.mpr (by omega))
            simp only [List.length_take, List.length_cons]
            omega
          · rw [← hrest] at hp'
            exact ihfull p hp'

/-- C4: for every test list and positive batch size, `test_batches()`
(`paginate`) yields a finite sequence of consecutive non-overlapping pages
whose concatenation is exactly the test list in corpus order, every page
non-empty and at most `batch_size` long, and every page before the last
exactly `batch_size` long. -/
theorem test_batches_pagination (l : List α) (batch_size : Nat) (h : 0 < batch_size) :
    ∃ pages, paginate l batch_size = some pages ∧
      pages.flatten = l ∧
      (∀ p ∈ pages, 0 < p.length ∧ p.length ≤ batch_size) ∧
      (∀ p ∈ pages.dropLast, p.length = batch_size) := by
  match batch_size, h with
  | m + 1, _ =>
    obtain ⟨h1, h2, h3⟩ := paginateAux_spec m l.length l (le_refl _)
    exact ⟨paginateAux m l.length l, rfl, h1, h2, h3⟩

/-- C4 witness: a test set of size 130 with batch size 64 yields exactly the
3 pages of sizes 64, 64, 2, whose concatenation is the whole list. -/
theorem test_batches_pagination_witness :
    0 < 64 ∧
    paginate (List.replicate 130 (0 : Nat)) 64 =
      some (paginateAux 63 130 (List.replicate 130 (0 : Nat))) ∧
    (paginateAux 63 130 (List.replicate 130 (0 : Nat))).flatten = List.replicate 130 0 ∧
    (paginateAux 63 130 (List.replicate 130 (0 : Nat))).map List.length = [64, 64, 2] := by
  obtain ⟨pages, hp, hflat, -, -⟩ :=
    test_batches_pagination (List.replicate 130 (0 : Nat)) 64 (by decide)
  have hrfl : paginate (List.replicate 130 (0 : Nat)) 64 =
      some (paginateAux 63 130 (List.replicate 130 (0 : Nat))) := rfl
  have hpages : pages = paginateAux 63 130 (List.replicate 130 (0 : Nat)) :=
    Option.some.inj (hp.symm.trans hrfl)
  subst hpages
  exact ⟨by decide, hp, hflat, by rfl⟩

/-! ## Random training batches -/

lemma get_not_mem_eraseIdx (l : List α) (hl : l.Nodup) (i : Nat) (hi : i < l.length) :
    l.get ⟨i, hi⟩ ∉ l.eraseIdx i := by
  intro hx
  rw [List.mem_eraseIdx_iff_getElem] at hx
  obtain ⟨j, hj, hji, hval⟩ := hx
  have hinj := List.nodup_iff_injective_get.mp hl
  have heq : (⟨j, hj⟩ : Fin l.length) = ⟨i, hi⟩ := hinj (by simpa using hval)
  exact hji (by simpa using congrArg Fin.val heq)

lemma sampleAux_length (pop : List α) (g k : Nat) (h : k ≤ pop.length) :
    (sampleAux pop g k).1.length = k := by
  induction k generalizing pop g with
  | zero => rfl
  | succ k ih =>
    have hpos : pop.length ≠ 0 := by omega
    have hi : lcgNext g % pop.length < pop.length :=
      Nat.mod_lt _ (Nat.pos_of_ne_zero hpos)
    simp only [sampleAux, dif_neg hpos, List.length_cons]
    rw [ih]
    rw [List.length_eraseIdx]
    simp only [hi, if_pos]
    omega

lemma sampleAux_subset (pop : List α) (g k : Nat) :
    ∀ x ∈ (sampleAux pop g k).1, x ∈ pop := by
  induction k generalizing pop g with
  | zero =>
    intro x hx
    simp [sampleAux] at hx
  | succ k ih =>
    intro x hx
    by_cases hpos : pop.length = 0
    · simp [sampleAux, dif_pos hpos] at hx
    · simp only [sampleAux, dif_neg hpos] at hx
      rcases List.mem_cons.mp hx with rfl | hx1
      · exact pop.get_mem _ _
      · exact (List.eraseIdx_sublist pop _).subset (ih _ _ x hx1)

lemma sampleAux_nodup (pop : List α) (g k : Nat) (hl : pop.Nodup) :
    (sampleAux pop g k).1.Nodup := by
  induction k generalizing pop g with
  | zero => simp [sampleAux]
  | succ k ih =>
    by_cases hpos : pop.length = 0
    · simp [sampleAux, dif_pos hpos]
    · simp only [sampleAux, dif_neg hpos]
      refine List.nodup_cons.mpr ⟨?_, ih _ _ ((List.eraseIdx_sublist pop _).nodup hl)⟩
      intro hmem
      exact get_not_mem_eraseIdx pop hl _ _ (sampleAux_subset _ _ _ _ hmem)

lemma trainingBatchesAux_none (l : List α) (batch_size g n : Nat)
    (h : l.length < batch_size) :
    trainingBatchesAux l batch_size g n = none := by
  cases n <;> simp [trainingBatchesAux, randomSample, if_pos h]

lemma trainingBatchesAux_some (l : List α) (batch_size : Nat) (h : batch_size ≤ l.length)
    (g n : Nat) :
    ∃ b gout, trainingBatchesAux l batch_size g n = some (b, gout) ∧
      b.length = batch_size ∧ (l.Nodup → b.Nodup) ∧ ∀ x ∈ b, x ∈ l := by
  induction n generalizing g with
  | zero =>
    refine ⟨(sampleAux l g batch_size).1, (sampleAux l g batch_size).2, ?_,
      sampleAux_length _ _ _ h, fun hn => sampleAux_nodup _ _ _ hn, sampleAux_subset _ _ _⟩
    simp [trainingBatchesAux, randomSample, if_neg (not_lt.mpr h)]
  | succ n ih =>
    obtain ⟨b, gout, hb, h1, h2, h3⟩ := ih (sampleAux l g batch_size).2
    refine ⟨b, gout, ?_, h1, h2, h3⟩
    simp only [trainingBatchesAux, randomSample, if_neg (not_lt.mpr h)]
    exact hb

/-- C9: when the batch size exceeds the training set size, every attempt to
draw a batch from `training_batches()` fails (`random.sample` refuses a sample
larger than its population); when the batch size is at most the training set
size, every yielded batch consists of exactly `batch_size` pairwise-distinct
elements of the training list (the training list being duplicate-free, as the
corpus invariant guarantees). -/
theorem training_batches_sampling (l : List α) (batch_size g n : Nat) :
    (l.length < batch_size → trainingBatch l batch_size g n = none) ∧
    (batch_size ≤ l.length → l.Nodup →
      ∃ b, trainingBatch l batch_size g n = some b ∧
        b.length = batch_size ∧ b.Nodup ∧ ∀ x ∈ b, x ∈ l) := by
  constructor
  · intro h
    simp [trainingBatch, trainingBatchesAux_none l batch_size g n h]
  · intro h hn
    obtain ⟨b, gout, hb, h1, h2, h3⟩ := trainingBatchesAux_some l batch_size h g n
    exact ⟨b, by simp [trainingBatch, hb], h1, h2 hn, h3⟩

/-- C9 witness: drawing the first batch of size 2 from a three-element
duplicate-free training list succeeds with a duplicate-free batch of size 2;
requesting a batch of size 4 fails. -/
theorem training_batches_sampling_witness :
    (2 ≤ ([10, 20, 30] : List Nat).length ∧
      trainingBatch ([10, 20, 30] : List Nat) 2 5 0 =
        some ((sampleAux ([10, 20, 30] : List Nat) 5 2).1) ∧
      (sampleAux ([10, 20, 30] : List Nat) 5 2).1.length = 2 ∧
      (sampleAux ([10, 20, 30] : List Nat) 5 2).1.Nodup) ∧
    (([10, 20, 30] : List Nat).length < 4 ∧
      trainingBatch ([10, 20, 30] : List Nat) 4 5 0 = none) := by
  obtain ⟨b, hb, hlen, hnd, -⟩ :=
    (training_batches_sampling ([10, 20, 30] : List Nat) 2 5 0).2 (by decide) (by decide)
  have hrfl : trainingBatch ([10, 20, 30] : List Nat) 2 5 0 =
      some ((sampleAux ([10, 20, 30] : List Nat) 5 2).1) := rfl
  have hbe : b = (sampleAux ([10, 20, 30] : List Nat) 5 2).1 :=
    Option.some.inj (hb.symm.trans hrfl)
  subst hbe
  refine ⟨⟨by decide, hb, hlen, hnd⟩, by decide, ?_⟩
  exact (training_batches_sampling ([10, 20, 30] : List Nat) 4 5 0).1 (by decide)

/-! ## The decibel clamp -/

/-- C5 counterexample: the claim maps every `x ≤ 0` to the decibel floor, but
on a negative power value the code reaches `math.log10(x)` unguarded and
raises a `ValueError` instead of returning the floor. -/
theorem power_to_decibel_negative_counterexample :
    power_to_decibel (-1) = none ∧ power_to_decibel (-1) ≠ some min_decibel := by
  have h : power_to_decibel (-1) = none := by
    unfold power_to_decibel
    rw [if_neg (by norm_num), if_pos (by norm_num)]
  exact ⟨h, by simp [h]⟩

/-- C5 (amended): for every nonnegative power value `x`, the power-level
conversion returns the decibel floor (-150) at `x = 0` and otherwise
`10*log10(x)` clamped below at the floor; every returned value is at least
the floor. (Negative values — which a power spectrogram, being a square,
never contains — instead raise a math domain error.) -/
theorem power_to_decibel_clamp (x : ℝ) (hx : 0 ≤ x) :
    power_to_decibel x =
      some (if x = 0 then min_decibel else max min_decibel (10 * Real.logb 10 x)) ∧
    ∀ y, power_to_decibel x = some y → min_decibel ≤ y := by
  rcases eq_or_lt_of_le hx with rfl | hpos
  · refine ⟨by simp [power_to_decibel], ?_⟩
    intro y hy
    simp [power_to_decibel] at hy
    exact le_of_eq hy
  · have hne : x ≠ 0 := ne_of_gt hpos
    have hnlt : ¬x < 0 := not_lt.mpr hx
    have hform : power_to_decibel x =
        some (if 10 * Real.logb 10 x < min_decibel then min_decibel
          else 10 * Real.logb 10 x) := by
      unfold power_to_decibel
      rw [if_neg hne, if_neg hnlt]
    constructor
    · rw [hform, if_neg hne]
      congr 1
      rcases lt_or_le (10 * Real.logb 10 x) min_decibel with hlt | hle
      · rw [if_pos hlt, max_eq_left (le_of_lt hlt)]
      · rw [if_neg (not_lt.mpr hle), max_eq_right hle]
    · intro y hy
      rw [hform] at hy
      have hy1 := Option.some.inj hy
      rcases lt_or_le (10 * Real.logb 10 x) min_decibel with hlt | hle
      · rw [if_pos hlt] at hy1
        exact le_of_eq hy1
      · rw [if_neg (not_lt.mpr hle)] at hy1
        exact hy1 ▸ hle

/-- C5 witness: the clamp theorem applied at the concrete power value 100. -/
theorem power_to_decibel_clamp_witness :
    (0 : ℝ) ≤ 100 ∧
    power_to_decibel 100 =
      some (if (100 : ℝ) = 0 then min_decibel
        else max min_decibel (10 * Real.logb 10 100)) ∧
    ∀ y, power_to_decibel 100 = some y → min_decibel ≤ y := by
  have h := power_to_decibel_clamp 100 (by norm_num)
  exact ⟨by norm_num, h.1, h.2⟩

/-! ## Z-normalization -/

lemma sum_map_center_div (l : List ℝ) (μ σ : ℝ) :
    (l.map (fun x => (x - μ) / σ)).sum = (l.sum - l.length * μ) / σ := by
  induction l with
  | nil => simp
  | cons x xs ih =>
    simp only [List.map_cons, List.sum_cons, ih, List.length_cons]
    push_cast
    ring

lemma sum_map_sq_div (l : List ℝ) (μ σ : ℝ) :
    (l.map (fun x => ((x - μ) / σ) ^ 2)).sum = (l.map (fun x => (x - μ) ^ 2)).sum / σ ^ 2 := by
  induction l with
  | nil => simp
  | cons x xs ih =>
    simp only [List.map_cons, List.sum_cons, ih]
    rw [div_pow, div_add_div_same]

lemma listVar_nonneg (l : List ℝ) : 0 ≤ listVar l := by
  apply div_nonneg
  · apply List.sum_nonneg
    intro y hy
    obtain ⟨x, -, rfl⟩ := List.mem_map.mp hy
    positivity
  · positivity

lemma listMean_z_normalize (l : List ℝ) (h0 : l ≠ []) :
    listMean (z_normalize l) = 0 := by
  have hlp : 0 < l.length := List.length_pos.mpr h0
  have hn : (l.length : ℝ) ≠ 0 := by
    exact_mod_cast Nat.pos_iff_ne_zero.mp hlp
  unfold listMean z_normalize
  rw [List.length_map, sum_map_center_div]
  have hz : l.sum - l.length * listMean l = 0 := by
    unfold listMean
    field_simp
  rw [hz, zero_div, zero_div]

lemma listVar_z_normalize (l : List ℝ) (h0 : l ≠ []) :
    listVar (z_normalize l) = listVar l / listStd l ^ 2 := by
  unfold listVar
  rw [listMean_z_normalize l h0]
  have hmap : (z_normalize l).map (fun x => (x - 0) ^ 2) =
      l.map (fun x => ((x - listMean l) / listStd l) ^ 2) := by
    unfold z_normalize
    rw [List.map_map]
    apply List.map_congr_left
    intro x hx
    simp
  rw [hmap, sum_map_sq_div]
  unfold z_normalize
  rw [List.length_map]
  ring

/-- C8: z-normalization computes `(value - mean) / standard_deviation`
element-wise with mean and standard deviation taken over the entire array, so
for every non-empty array with nonzero standard deviation the result has mean
0 and standard deviation 1. -/
theorem z_normalize_mean_zero_std_one (l : List ℝ) (h0 : l ≠ []) (hσ : listStd l ≠ 0) :
    z_normalize l = l.map (fun x => (x - listMean l) / listStd l) ∧
    listMean (z_normalize l) = 0 ∧
    listStd (z_normalize l) = 1 := by
  refine ⟨rfl, listMean_z_normalize l h0, ?_⟩
  have hvar : listVar l ≠ 0 := by
    intro hv
    exact hσ (by rw [listStd, hv, Real.sqrt_zero])
  have hsq : listStd l ^ 2 = listVar l := Real.sq_sqrt (listVar_nonneg l)
  rw [listStd, listVar_z_normalize l h0, hsq, div_self hvar, Real.sqrt_one]

/-- C8 witness: the array `[0, 2]` has mean 1 and standard deviation 1; its
z-normalization has mean 0 and standard deviation 1. -/
theorem z_normalize_mean_zero_std_one_witness :
    (([(0 : ℝ), 2] ≠ []) ∧ listStd [(0 : ℝ), 2] ≠ 0) ∧
    listMean (z_normalize [(0 : ℝ), 2]) = 0 ∧
    listStd (z_normalize [(0 : ℝ), 2]) = 1 := by
  have hm : listMean [(0 : ℝ), 2] = 1 := by
    norm_num [listMean]
  have hv : listVar [(0 : ℝ), 2] = 1 := by
    norm_num [listVar, hm]
  have hs : listStd [(0 : ℝ), 2] = 1 := by
    rw [listStd, hv, Real.sqrt_one]
  have h := z_normalize_mean_zero_std_one [(0 : ℝ), 2] (by simp) (by rw [hs]; norm_num)
  exact ⟨⟨by simp, by rw [hs]; norm_num⟩, h.2.1, h.2.2⟩

end Speechless
